import Mathlib

/-!
Verification of the AIS bit-level decoding core: a shallow embedding of the
navigation value-semantics functions and of the Base Station Report and
Static Data Report message decoders, together with proofs of the stated
properties of the decoders.
-/

namespace Ais

/-- Error kinds produced by the bit-level parsers, mirroring the nom error
kinds the source produces: `eof` for insufficient bits, `mapRes` for a
value-semantics function rejecting an extracted raw value, `digit` for the
unknown message-part discriminant, and `panic` modelling an
`unreachable` panic arm. -/
inductive PErr where
  | eof
  | mapRes
  | digit
  | panic
deriving DecidableEq, Repr

/-- A bit-level parser: consumes a prefix of a list of bits and returns a
value plus the remaining bits, or an error.  This models nom bit parsers
over the `(&[u8], usize)` bit cursor, flattened to the list of unconsumed
bits. -/
def BitM (α : Type) : Type := List Bool → Except PErr (α × List Bool)

/-- Sequencing of bit parsers: run the first, feed its value and remaining
bits to the second; errors short-circuit (the behaviour of `?` in the
source). -/
def pBind {α β : Type} (p : BitM α) (f : α → BitM β) : BitM β := fun s =>
  match p s with
  | .ok (a, s') => f a s'
  | .error e => .error e

/-- A parser returning a value without consuming bits. -/
def pPure {α : Type} (a : α) : BitM α := fun s => .ok (a, s)

instance : Monad BitM where
  pure := pPure
  bind := pBind

theorem bindEq {α β : Type} (p : BitM α) (f : α → BitM β) :
    p >>= f = pBind p f := rfl

theorem pureEq {α : Type} (a : α) : (pure a : BitM α) = pPure a := rfl

/-- Big-endian value of a list of bits. -/
def bitsToNat (l : List Bool) : Nat :=
  l.foldl (fun acc b => 2 * acc + (if b then 1 else 0)) 0

/-- Bits of one byte, most significant first (the order in which the bit
cursor consumes a byte buffer). -/
def byteBits (b : Nat) : List Bool :=
  [b.testBit 7, b.testBit 6, b.testBit 5, b.testBit 4,
   b.testBit 3, b.testBit 2, b.testBit 1, b.testBit 0]

/-- The bit stream of a byte buffer, as seen by the `bits` adapter. -/
def bitsOfBytes (bs : List Nat) : List Bool := bs.flatMap byteBits

/-- Embedding of nom `take_bits(w)` over the bit cursor: read `w` bits
big-endian, fail with `Eof` when fewer than `w` bits remain. -/
def takeBits (w : Nat) : BitM Nat := fun s =>
  if w ≤ s.length then .ok (bitsToNat (s.take w), s.drop w) else .error .eof

/-- Modelled from the spec: `remaining_bits` from the repository's parsers
module (not under `src/`), §4.2: the exact count of unconsumed bits of the
cursor, consuming nothing. -/
def remaining_bits : BitM Nat := fun s => .ok (s.length, s)

/-- Embedding of nom `map_res(p, f)`: run `p`, then apply the fallible
value-semantics function `f`; a rejection becomes a `MapRes` parse error. -/
def map_res {α β : Type} (p : BitM α) (f : α → Except String β) : BitM β := fun s =>
  match p s with
  | .ok (a, s') =>
    match f a with
    | .ok b => .ok (b, s')
    | .error _ => .error .mapRes
  | .error e => .error e

/-- Two's-complement reinterpretation of a `w`-bit raw value, per §4.2
`take_signed`: sign-extend based on bit `w-1`. -/
def toSigned (w n : Nat) : Int :=
  if n < 2 ^ (w - 1) then (n : Int) else (n : Int) - 2 ^ w

/-- Modelled from the spec: `signed_i32` from the repository's parsers
module (not under `src/`), §4.2: read `w` bits and sign-extend
(two's-complement) based on the field's top bit. -/
def signed_i32 (w : Nat) : BitM Int := fun s =>
  match takeBits w s with
  | .ok (n, s') => .ok (toSigned w n, s')
  | .error e => .error e

/-! Value-semantics functions from `src/messages/navigation.rs`.  Fractional
results are represented exactly as rationals: `raw as f32 / 600000.0`
becomes `(raw : ℚ) / 600000`. -/

/-- `parse_longitude` from `navigation.rs`: raw in
`[-108000000, 108000000]` is a present value `raw/600000`; the sentinel
`108600000` is absent; anything else is a decode failure. -/
def parse_longitude (d : Int) : Except String (Option ℚ) :=
  if -108000000 ≤ d ∧ d ≤ 108000000 then .ok (some ((d : ℚ) / 600000))
  else if d = 108600000 then .ok none
  else .error "Invalid longitude"

/-- `parse_latitude` from `navigation.rs`. -/
def parse_latitude (d : Int) : Except String (Option ℚ) :=
  if -54000000 ≤ d ∧ d ≤ 54000000 then .ok (some ((d : ℚ) / 600000))
  else if d = 54600000 then .ok none
  else .error "Invalid latitude"

/-- Position-fix accuracy enumeration from `navigation.rs`. -/
inductive Accuracy where
  | Unaugmented
  | DGPS
deriving DecidableEq, Repr

/-- `Accuracy::parse` from `navigation.rs`. -/
def Accuracy.parse (d : Nat) : Except String Accuracy :=
  if d = 0 then .ok .Unaugmented
  else if d = 1 then .ok .DGPS
  else .error "Unknown accuracy value"

/-- Reinterpretation of an 8-bit unsigned value as a signed i8
(`data as i8` in the source). -/
def i8OfU8 (d : Nat) : Int :=
  if d % 256 < 128 then (d % 256 : Int) else (d % 256 : Int) - 256

/-- Rate-of-turn field from `navigation.rs`: the stored signed raw byte. -/
structure RateOfTurn where
  raw : Int
deriving DecidableEq, Repr

/-- Turn direction from `navigation.rs`. -/
inductive Direction where
  | Port
  | Starboard
deriving DecidableEq, Repr

/-- `RateOfTurn::parse` from `navigation.rs`: the match on `data as i8`;
the `unreachable` arm is made explicit as an error value so that its
deadness can be stated. -/
def RateOfTurn.parse (d : Nat) : Except String (Option RateOfTurn) :=
  let s := i8OfU8 d
  if s = -128 then .ok none
  else if -127 ≤ s ∧ s ≤ 127 then .ok (some ⟨s⟩)
  else .error "unreachable"

/-- `RateOfTurn::rate` from `navigation.rs`: `(raw / 4.733)^2` for raw in
`[-126, 126]`, absent for `±127`, with the `unreachable` arm explicit. -/
def RateOfTurn.rate (r : RateOfTurn) : Except String (Option ℚ) :=
  if -126 ≤ r.raw ∧ r.raw ≤ 126 then
    .ok (some (((r.raw : ℚ) / (4733 / 1000)) ^ 2))
  else if r.raw = -127 then .ok none
  else if r.raw = 127 then .ok none
  else .error "unreachable"

/-- `RateOfTurn::direction` from `navigation.rs`, with the `unreachable`
arm explicit. -/
def RateOfTurn.direction (r : RateOfTurn) : Except String (Option Direction) :=
  if r.raw = 0 then .ok none
  else if 1 ≤ r.raw ∧ r.raw ≤ 127 then .ok (some .Starboard)
  else if -127 ≤ r.raw ∧ r.raw ≤ -1 then .ok (some .Port)
  else .error "unreachable"

/-! Helpers from the repository's parsers and types modules, which are not
under `src/`; they are modelled from the spec, faithful to its words. -/

/-- Modelled from the spec: the 6-bit character table of §4.7 — codes
0–31 map to `'@' + n`, codes 32–63 map to `' ' + (n - 32)`. -/
def sixbitToChar (n : Nat) : Char :=
  if n < 32 then Char.ofNat (64 + n) else Char.ofNat n

/-- Reads `n` consecutive 6-bit groups from the cursor. -/
def readGroups : Nat → BitM (List Nat)
  | 0 => pure []
  | n + 1 => do
    let c ← takeBits 6
    let cs ← readGroups n
    pure (c :: cs)

/-- Removes the trailing `'@'` padding characters, per §4.7. -/
def stripTrailingAt (l : List Char) : List Char :=
  (l.reverse.dropWhile (fun c => c = '@')).reverse

/-- Modelled from the spec: `parse_6bit_ascii` from the repository's
parsers module (not under `src/`), §4.7: consume `size` bits in 6-bit
groups, map each group through the 6-bit character table, and trim the
trailing `'@'` padding. -/
def parse_6bit_ascii (size : Nat) : BitM String := do
  let cs ← readGroups (size / 6)
  pure (String.mk (stripTrailingAt (cs.map sixbitToChar)))

/-- Modelled from the spec: `u8_to_bool` from the repository's messages
module (not under `src/`): 0 is false, 1 is true, anything else rejected. -/
def u8_to_bool (d : Nat) : Except String Bool :=
  if d = 0 then .ok false
  else if d = 1 then .ok true
  else .error "Invalid boolean value"

/-- Modelled from the spec: `parse_year` from the repository's parsers
module (not under `src/`), §4.5: 14-bit year, sentinel 0 means absent. -/
def parse_year : BitM (Option Nat) := do
  let y ← takeBits 14
  pure (if y = 0 then none else some y)

/-- Modelled from the spec: `parse_month` (not under `src/`), §4.5: 4-bit
month, sentinel 0 means absent. -/
def parse_month : BitM (Option Nat) := do
  let m ← takeBits 4
  pure (if m = 0 then none else some m)

/-- Modelled from the spec: `parse_day` (not under `src/`), §4.5: 5-bit
day, sentinel 0 means absent. -/
def parse_day : BitM (Option Nat) := do
  let d ← takeBits 5
  pure (if d = 0 then none else some d)

/-- Modelled from the spec: `parse_hour` (not under `src/`), §4.5: 5-bit
hour, reserved sentinel 24 means absent. -/
def parse_hour : BitM (Option Nat) := do
  let h ← takeBits 5
  pure (if h = 24 then none else some h)

/-- Modelled from the spec: `parse_minsec` (not under `src/`), §4.5: 6-bit
minute or second, reserved sentinel 60 means absent. -/
def parse_minsec : BitM (Option Nat) := do
  let m ← takeBits 6
  pure (if m = 60 then none else some m)

/-- Modelled from the spec: the EPFD fix-device enumeration is an external
collaborator consumed as an opaque `parse(raw) -> value|error` contract
(§1, §6); only its 4-bit raw value matters here, sentinel 0 meaning
absent. -/
structure EpfdType where
  raw : Nat
deriving DecidableEq, Repr

/-- Modelled from the spec: `EpfdType::parse` collaborator contract,
`parse(4-bit raw) -> value|error` (§6): sentinel 0 is absent, the
standard's defined device codes 1 to 8 are values, and any other code is
the `UnknownEnumValue` delegated-enum failure of §7 (the exact code table
belongs to the excluded collaborator). -/
def EpfdType.parse (d : Nat) : Except String (Option EpfdType) :=
  if d = 0 then .ok none
  else if d ≤ 8 then .ok (some ⟨d⟩)
  else .error "Unknown EPFD type"

/-- Modelled from the spec: the ship-type enumeration is an external
collaborator (§1, §6); only its 8-bit raw value matters here, sentinel 0
meaning absent. -/
structure ShipType where
  raw : Nat
deriving DecidableEq, Repr

/-- Modelled from the spec: `ShipType::parse` collaborator contract,
`parse(8-bit raw) -> value|error` (§6): sentinel 0 is absent, the
standard's defined ship-type codes 1 to 99 are values, and any other code
is the `UnknownEnumValue` delegated-enum failure of §7 (the exact code
table belongs to the excluded collaborator). -/
def ShipType.parse (d : Nat) : Except String (Option ShipType) :=
  if d = 0 then .ok none
  else if d ≤ 99 then .ok (some ⟨d⟩)
  else .error "Unknown ship type"

/-- Modelled from the spec: the SOTDMA radio-status sub-message (§6):
sync state, slot timeout and sub-message fields. -/
structure SotdmaMessage where
  sync_state : Nat
  slot_timeout : Nat
  sub_message : Nat
deriving DecidableEq, Repr

/-- Modelled from the spec: the ITDMA radio-status sub-message (§6). -/
structure ItdmaMessage where
  sync_state : Nat
  slot_increment : Nat
  num_slots : Nat
  keep : Bool
deriving DecidableEq, Repr

/-- Modelled from the spec: the radio synchronization status (§6),
either SOTDMA or ITDMA framing. -/
inductive RadioStatus where
  | Sotdma (m : SotdmaMessage)
  | Itdma (m : ItdmaMessage)
deriving DecidableEq, Repr

/-- Modelled from the spec: `parse_radio` from the repository's
radio-status module (not under `src/`), §4.5/§6: a delegated 19-bit radio
status, receiving the already-read message-type code to select SOTDMA vs
ITDMA framing. -/
def parse_radio (message_type : Nat) : BitM RadioStatus :=
  if message_type = 3 then do
    let sync_state ← takeBits 2
    let slot_increment ← takeBits 13
    let num_slots ← takeBits 3
    let keep ← map_res (takeBits 1) u8_to_bool
    pure (.Itdma ⟨sync_state, slot_increment, num_slots, keep⟩)
  else do
    let sync_state ← takeBits 2
    let slot_timeout ← takeBits 3
    let sub_message ← takeBits 14
    pure (.Sotdma ⟨sync_state, slot_timeout, sub_message⟩)

/-! The Base Station Report decoder from
`src/messages/base_station_report.rs`. -/

/-- The Base Station Report record (type 4). -/
structure BaseStationReport where
  message_type : Nat
  repeat_indicator : Nat
  mmsi : Nat
  year : Option Nat
  month : Option Nat
  day : Option Nat
  hour : Option Nat
  minute : Option Nat
  second : Option Nat
  fix_quality : Accuracy
  longitude : Option ℚ
  latitude : Option ℚ
  epfd_type : Option EpfdType
  raim : Bool
  radio_status : RadioStatus
deriving DecidableEq, Repr

/-- `parse_base` from `base_station_report.rs`: the bit-level field
sequence of the Base Station Report. -/
def parse_base_bsr : BitM BaseStationReport := do
  let message_type ← takeBits 6
  let repeat_indicator ← takeBits 2
  let mmsi ← takeBits 30
  let year ← parse_year
  let month ← parse_month
  let day ← parse_day
  let hour ← parse_hour
  let minute ← parse_minsec
  let second ← parse_minsec
  let fix_quality ← map_res (takeBits 1) Accuracy.parse
  let longitude ← map_res (signed_i32 28) parse_longitude
  let latitude ← map_res (signed_i32 27) parse_latitude
  let epfd_type ← map_res (takeBits 4) EpfdType.parse
  let _spare ← takeBits 10
  let raim ← map_res (takeBits 1) u8_to_bool
  let radio_status ← parse_radio message_type
  pure { message_type, repeat_indicator, mmsi, year, month, day, hour,
         minute, second, fix_quality, longitude, latitude, epfd_type,
         raim, radio_status }

/-- `BaseStationReport::parse`: run the bit-level parser over the byte
buffer's bit stream and discard the unconsumed remainder. -/
def BaseStationReport.parse (bytes : List Nat) : Except PErr BaseStationReport :=
  match parse_base_bsr (bitsOfBytes bytes) with
  | .ok (r, _) => .ok r
  | .error e => .error e

/-! The Static Data Report decoder from
`src/messages/static_data_report.rs`. -/

/-- The two sub-message shapes of the Static Data Report, from
`static_data_report.rs`. -/
inductive MessagePart where
  | PartA (vessel_name : String)
  | PartB (ship_type : Option ShipType) (vendor_id : String)
      (model_serial : String) (unit_model_code : Nat) (serial_number : Nat)
      (callsign : String) (dimension_to_bow : Nat) (dimension_to_stern : Nat)
      (dimension_to_port : Nat) (dimension_to_starboard : Nat)
deriving DecidableEq, Repr

/-- Embedding of `let (_, x) = p(data)?`: run the parser for its value but
keep the old cursor, as the source does for the `model_serial` field. -/
def lookahead {α : Type} (p : BitM α) : BitM α := fun s =>
  match p s with
  | .ok (a, _) => .ok (a, s)
  | .error e => .error e

/-- The Part A arm of `parse_message_part` (discriminant 0): the 120-bit
vessel name, then a spare field whose width is clamped to
`min(remaining_bits, 7)` because senders occasionally omit the spare
bits. -/
def parse_part_a : BitM MessagePart := do
  let vessel_name ← parse_6bit_ascii 120
  let rem ← remaining_bits
  let _spare ← takeBits (min rem 7)
  pure (.PartA vessel_name)

/-- The Part B arm of `parse_message_part` (discriminant 1): the
`model_serial` field is parsed from the current cursor but the cursor is
not advanced (`let (_, model_serial) = ...` in the source), so the same
24 bits are re-read as `unit_model_code` and `serial_number`; the final
6-bit spare is mandatory. -/
def parse_part_b : BitM MessagePart := do
  let ship_type ← map_res (takeBits 8) ShipType.parse
  let vendor_id ← parse_6bit_ascii 18
  let model_serial ← lookahead (parse_6bit_ascii 24)
  let unit_model_code ← takeBits 4
  let serial_number ← takeBits 20
  let callsign ← parse_6bit_ascii 42
  let dimension_to_bow ← takeBits 9
  let dimension_to_stern ← takeBits 9
  let dimension_to_port ← takeBits 6
  let dimension_to_starboard ← takeBits 6
  let _spare ← takeBits 6
  pure (.PartB ship_type vendor_id model_serial unit_model_code
    serial_number callsign dimension_to_bow dimension_to_stern
    dimension_to_port dimension_to_starboard)

/-- `parse_message_part` from `static_data_report.rs`: the 2-bit part
discriminant followed by the selected variant's fields; discriminants 2
and 3 fail, and the `panic` arm for an impossible 2-bit value is made
explicit. -/
def parse_message_part (_mmsi : Nat) : BitM MessagePart := do
  let part_number ← takeBits 2
  match part_number with
  | 0 => parse_part_a
  | 1 => parse_part_b
  | 2 => fun _ => .error .digit
  | 3 => fun _ => .error .digit
  | _ => fun _ => .error .panic

/-- The Static Data Report record (type 24). -/
structure StaticDataReport where
  message_type : Nat
  repeat_indicator : Nat
  mmsi : Nat
  message_part : MessagePart
deriving DecidableEq, Repr

/-- `parse_base` from `static_data_report.rs`: header then part
dispatch. -/
def parse_base_sdr : BitM StaticDataReport := do
  let message_type ← takeBits 6
  let repeat_indicator ← takeBits 2
  let mmsi ← takeBits 30
  let message_part ← parse_message_part mmsi
  pure { message_type, repeat_indicator, mmsi, message_part }

/-- `StaticDataReport::parse`: run the bit-level parser over the byte
buffer's bit stream and discard the unconsumed remainder. -/
def StaticDataReport.parse (bytes : List Nat) : Except PErr StaticDataReport :=
  match parse_base_sdr (bitsOfBytes bytes) with
  | .ok (r, _) => .ok r
  | .error e => .error e

/-! Decidable equality of parse results, for evaluating the decoders on
concrete inputs. -/

instance {ε α : Type} [DecidableEq ε] [DecidableEq α] : DecidableEq (Except ε α) := fun x y =>
  match x, y with
  | .ok a, .ok b =>
    if h : a = b then isTrue (by rw [h]) else isFalse (fun hc => by cases hc; exact h rfl)
  | .ok _, .error _ => isFalse (fun hc => by cases hc)
  | .error _, .ok _ => isFalse (fun hc => by cases hc)
  | .error e, .error f =>
    if h : e = f then isTrue (by rw [h]) else isFalse (fun hc => by cases hc; exact h rfl)

/-! Run and inversion lemmas for the parser combinators. -/

theorem pBind_ok {α β : Type} {p : BitM α} {s : List Bool} {a : α} {t : List Bool}
    (f : α → BitM β) (h : p s = .ok (a, t)) : pBind p f s = f a t := by
  simp only [pBind, h]

theorem pBind_err {α β : Type} {p : BitM α} {s : List Bool} {e : PErr}
    (f : α → BitM β) (h : p s = .error e) : pBind p f s = .error e := by
  simp only [pBind, h]

theorem bind_inv {α β : Type} {p : BitM α} {f : α → BitM β} {s : List Bool}
    {r : β × List Bool} (h : (p >>= f) s = .ok r) :
    ∃ a t, p s = .ok (a, t) ∧ f a t = .ok r := by
  rw [bindEq] at h
  unfold pBind at h
  cases hps : p s with
  | ok pr =>
    obtain ⟨a, t0⟩ := pr
    rw [hps] at h
    exact ⟨a, t0, rfl, h⟩
  | error e => rw [hps] at h; cases h

theorem pPure_run {α : Type} (a : α) (s : List Bool) :
    (pure a : BitM α) s = .ok (a, s) := rfl

theorem pure_inv {α : Type} {a b : α} {s t : List Bool}
    (h : (pure a : BitM α) s = .ok (b, t)) : b = a ∧ t = s := by
  cases h; exact ⟨rfl, rfl⟩

theorem takeBits_ok {w : Nat} {s : List Bool} (h : w ≤ s.length) :
    takeBits w s = .ok (bitsToNat (s.take w), s.drop w) := by
  simp [takeBits, h]

theorem takeBits_err {w : Nat} {s : List Bool} (h : s.length < w) :
    takeBits w s = .error .eof := by
  unfold takeBits
  rw [if_neg (by omega)]

theorem takeBits_inv {w : Nat} {s : List Bool} {a : Nat} {t : List Bool}
    (h : takeBits w s = .ok (a, t)) :
    w ≤ s.length ∧ a = bitsToNat (s.take w) ∧ t = s.drop w := by
  unfold takeBits at h
  split at h
  · cases h; exact ⟨by assumption, rfl, rfl⟩
  · cases h

theorem takeBits_append {w : Nat} {s : List Bool} {a : Nat} {t b : List Bool}
    (h : takeBits w s = .ok (a, t)) : takeBits w (s ++ b) = .ok (a, t ++ b) := by
  obtain ⟨hw, ha, ht⟩ := takeBits_inv h
  rw [takeBits_ok (by simp; omega), List.take_append_of_le_length hw,
    List.drop_append_of_le_length hw, ha, ht]

theorem map_res_ok {α β : Type} {p : BitM α} {f : α → Except String β}
    {s t : List Bool} {a : α} {b : β}
    (h : p s = .ok (a, t)) (hf : f a = .ok b) : map_res p f s = .ok (b, t) := by
  simp only [map_res, h, hf]

theorem map_res_err {α β : Type} {p : BitM α} {f : α → Except String β}
    {s t : List Bool} {a : α} {m : String}
    (h : p s = .ok (a, t)) (hf : f a = .error m) : map_res p f s = .error .mapRes := by
  simp only [map_res, h, hf]

theorem map_res_inv {α β : Type} {p : BitM α} {f : α → Except String β}
    {s t : List Bool} {b : β} (h : map_res p f s = .ok (b, t)) :
    ∃ a, p s = .ok (a, t) ∧ f a = .ok b := by
  unfold map_res at h
  cases hps : p s with
  | ok pr =>
    obtain ⟨a, t0⟩ := pr
    rw [hps] at h
    dsimp only [] at h
    cases hfa : f a with
    | ok v =>
      rw [hfa] at h
      cases h
      exact ⟨a, rfl, hfa⟩
    | error m => rw [hfa] at h; cases h
  | error e => rw [hps] at h; cases h

theorem signed_i32_ok {w : Nat} {s : List Bool} (h : w ≤ s.length) :
    signed_i32 w s = .ok (toSigned w (bitsToNat (s.take w)), s.drop w) := by
  simp only [signed_i32, takeBits_ok h]

theorem signed_i32_inv {w : Nat} {s : List Bool} {a : Int} {t : List Bool}
    (h : signed_i32 w s = .ok (a, t)) :
    w ≤ s.length ∧ a = toSigned w (bitsToNat (s.take w)) ∧ t = s.drop w := by
  unfold signed_i32 at h
  cases hps : takeBits w s with
  | ok pr =>
    rw [hps] at h
    cases h
    obtain ⟨hw, ha, ht⟩ := takeBits_inv hps
    exact ⟨hw, by rw [ha], ht⟩
  | error e => rw [hps] at h; cases h

theorem lookahead_ok {α : Type} {p : BitM α} {s t : List Bool} {a : α}
    (h : p s = .ok (a, t)) : lookahead p s = .ok (a, s) := by
  simp only [lookahead, h]

theorem lookahead_inv {α : Type} {p : BitM α} {s t : List Bool} {a : α}
    (h : lookahead p s = .ok (a, t)) : t = s ∧ ∃ u, p s = .ok (a, u) := by
  unfold lookahead at h
  cases hps : p s with
  | ok pr =>
    obtain ⟨a0, u⟩ := pr
    rw [hps] at h
    cases h
    exact ⟨rfl, u, rfl⟩
  | error e => rw [hps] at h; cases h

/-- The value of `w` bits is below `2 ^ w`. -/
theorem bitsToNat_lt (l : List Bool) : bitsToNat l < 2 ^ l.length := by
  suffices h : ∀ (m : List Bool) (acc : Nat),
      m.foldl (fun acc b => 2 * acc + (if b then 1 else 0)) acc < (acc + 1) * 2 ^ m.length by
    simpa [bitsToNat] using h l 0
  intro m
  induction m with
  | nil => simp
  | cons b m ih =>
    intro acc
    have hstep : (b :: m).foldl (fun acc b => 2 * acc + (if b then 1 else 0)) acc
        = m.foldl (fun acc b => 2 * acc + (if b then 1 else 0))
            (2 * acc + (if b then 1 else 0)) := by
      simp [List.foldl_cons]
    rw [hstep]
    have h1 := ih (2 * acc + (if b then 1 else 0))
    have h2 : (2 * acc + (if b then 1 else 0) + 1) * 2 ^ m.length
        ≤ (acc + 1) * 2 ^ (b :: m).length := by
      have hb : (2 * acc + (if b then 1 else 0) + 1) ≤ 2 * (acc + 1) := by
        split <;> omega
      have : (2 * acc + (if b then 1 else 0) + 1) * 2 ^ m.length
          ≤ 2 * (acc + 1) * 2 ^ m.length := Nat.mul_le_mul_right _ hb
      calc (2 * acc + (if b then 1 else 0) + 1) * 2 ^ m.length
          ≤ 2 * (acc + 1) * 2 ^ m.length := this
        _ = (acc + 1) * (2 ^ m.length * 2) := by ring
        _ = (acc + 1) * 2 ^ (b :: m).length := by
            rw [List.length_cons, pow_succ]
    omega

/-! Append-determinism: a parser is `DetP` when appending extra input
after what it consumes neither changes its value nor disturbs the
remainder.  Every fixed-width parser is `DetP`; the Part A spare reader —
whose width depends on the remaining length — is not, which is exactly
the Part A record-tolerance property. -/

def DetP {α : Type} (p : BitM α) : Prop :=
  ∀ s b a t, p s = .ok (a, t) → p (s ++ b) = .ok (a, t ++ b)

theorem detP_pure {α : Type} (a : α) : DetP (pure a : BitM α) := by
  intro s b a' t h
  obtain ⟨rfl, rfl⟩ := pure_inv h
  rfl

theorem detP_takeBits (w : Nat) : DetP (takeBits w) := by
  intro s b a t h
  exact takeBits_append h

theorem detP_bind {α β : Type} {p : BitM α} {f : α → BitM β}
    (hp : DetP p) (hf : ∀ a, DetP (f a)) : DetP (p >>= f) := by
  intro s b c u h
  obtain ⟨a, t, h1, h2⟩ := bind_inv h
  rw [bindEq]
  rw [pBind_ok _ (hp s b a t h1)]
  exact hf a t b c u h2

theorem detP_map_res {α β : Type} {p : BitM α} {f : α → Except String β}
    (hp : DetP p) : DetP (map_res p f) := by
  intro s b c u h
  obtain ⟨a, h1, h2⟩ := map_res_inv h
  exact map_res_ok (hp s b a u h1) h2

theorem detP_signed_i32 (w : Nat) : DetP (signed_i32 w) := by
  intro s b a t h
  obtain ⟨hw, ha, ht⟩ := signed_i32_inv h
  rw [signed_i32_ok (by simp; omega), List.take_append_of_le_length hw,
    List.drop_append_of_le_length hw, ← ha, ← ht]

theorem detP_lookahead {α : Type} {p : BitM α} (hp : DetP p) : DetP (lookahead p) := by
  intro s b a t h
  obtain ⟨rfl, u, hu⟩ := lookahead_inv h
  exact lookahead_ok (hp _ b a u hu)

theorem detP_readGroups (n : Nat) : DetP (readGroups n) := by
  induction n with
  | zero => simp only [readGroups]; exact detP_pure []
  | succ n ih =>
    simp only [readGroups]
    exact detP_bind (detP_takeBits 6) fun c =>
      detP_bind ih fun cs => detP_pure (c :: cs)

theorem detP_parse_6bit_ascii (size : Nat) : DetP (parse_6bit_ascii size) := by
  simp only [parse_6bit_ascii]
  exact detP_bind (detP_readGroups _) fun cs => detP_pure _

theorem detP_parse_year : DetP parse_year := by
  simp only [parse_year]
  exact detP_bind (detP_takeBits 14) fun y => detP_pure _

theorem detP_parse_month : DetP parse_month := by
  simp only [parse_month]
  exact detP_bind (detP_takeBits 4) fun m => detP_pure _

theorem detP_parse_day : DetP parse_day := by
  simp only [parse_day]
  exact detP_bind (detP_takeBits 5) fun d => detP_pure _

theorem detP_parse_hour : DetP parse_hour := by
  simp only [parse_hour]
  exact detP_bind (detP_takeBits 5) fun h => detP_pure _

theorem detP_parse_minsec : DetP parse_minsec := by
  simp only [parse_minsec]
  exact detP_bind (detP_takeBits 6) fun m => detP_pure _

theorem detP_parse_radio (mt : Nat) : DetP (parse_radio mt) := by
  unfold parse_radio
  split
  · exact detP_bind (detP_takeBits 2) fun a =>
      detP_bind (detP_takeBits 13) fun b =>
        detP_bind (detP_takeBits 3) fun c =>
          detP_bind (detP_map_res (detP_takeBits 1)) fun d => detP_pure _
  · exact detP_bind (detP_takeBits 2) fun a =>
      detP_bind (detP_takeBits 3) fun b =>
        detP_bind (detP_takeBits 14) fun c => detP_pure _

theorem detP_parse_base_bsr : DetP parse_base_bsr := by
  unfold parse_base_bsr
  exact detP_bind (detP_takeBits 6) fun mt =>
    detP_bind (detP_takeBits 2) fun ri =>
      detP_bind (detP_takeBits 30) fun mm =>
        detP_bind detP_parse_year fun yr =>
          detP_bind detP_parse_month fun mo =>
            detP_bind detP_parse_day fun dy =>
              detP_bind detP_parse_hour fun hr =>
                detP_bind detP_parse_minsec fun mi =>
                  detP_bind detP_parse_minsec fun sc =>
                    detP_bind (detP_map_res (detP_takeBits 1)) fun fq =>
                      detP_bind (detP_map_res (detP_signed_i32 28)) fun lo =>
                        detP_bind (detP_map_res (detP_signed_i32 27)) fun la =>
                          detP_bind (detP_map_res (detP_takeBits 4)) fun ep =>
                            detP_bind (detP_takeBits 10) fun sp =>
                              detP_bind (detP_map_res (detP_takeBits 1)) fun ra =>
                                detP_bind (detP_parse_radio mt) fun rs => detP_pure _

theorem detP_parse_part_b : DetP parse_part_b := by
  unfold parse_part_b
  exact detP_bind (detP_map_res (detP_takeBits 8)) fun st =>
    detP_bind (detP_parse_6bit_ascii 18) fun vid =>
      detP_bind (detP_lookahead (detP_parse_6bit_ascii 24)) fun ms =>
        detP_bind (detP_takeBits 4) fun um =>
          detP_bind (detP_takeBits 20) fun sn =>
            detP_bind (detP_parse_6bit_ascii 42) fun cs =>
              detP_bind (detP_takeBits 9) fun d1 =>
                detP_bind (detP_takeBits 9) fun d2 =>
                  detP_bind (detP_takeBits 6) fun d3 =>
                    detP_bind (detP_takeBits 6) fun d4 =>
                      detP_bind (detP_takeBits 6) fun sp => detP_pure _

/-! Forward-run and inversion lemmas for the compound parsers. -/

theorem remaining_bits_run (s : List Bool) : remaining_bits s = .ok (s.length, s) := rfl

theorem readGroups_ok {n : Nat} {s : List Bool} (h : 6 * n ≤ s.length) :
    ∃ cs, readGroups n s = .ok (cs, s.drop (6 * n)) := by
  induction n generalizing s with
  | zero => exact ⟨[], by simp [readGroups, pureEq, pPure]⟩
  | succ n ih =>
    obtain ⟨cs, hcs⟩ := ih (s := s.drop 6) (by simp only [List.length_drop]; omega)
    refine ⟨bitsToNat (s.take 6) :: cs, ?_⟩
    simp only [readGroups]
    rw [bindEq, pBind_ok _ (takeBits_ok (by omega))]
    rw [bindEq, pBind_ok _ hcs]
    rw [List.drop_drop]
    have harith : 6 + 6 * n = 6 * (n + 1) := by ring
    rw [harith]
    rfl

theorem readGroups_inv {n : Nat} {s : List Bool} {cs : List Nat} {t : List Bool}
    (h : readGroups n s = .ok (cs, t)) : 6 * n ≤ s.length ∧ t = s.drop (6 * n) := by
  induction n generalizing s cs t with
  | zero =>
    simp only [readGroups] at h
    obtain ⟨rfl, rfl⟩ := pure_inv h
    simp
  | succ n ih =>
    simp only [readGroups] at h
    obtain ⟨c, t1, h1, h2⟩ := bind_inv h
    obtain ⟨cs', t2, h3, h4⟩ := bind_inv h2
    obtain ⟨rfl, rfl⟩ := pure_inv h4
    obtain ⟨hw, hc, rfl⟩ := takeBits_inv h1
    obtain ⟨hn, rfl⟩ := ih h3
    simp only [List.length_drop] at hn
    constructor
    · omega
    · rw [List.drop_drop]
      have harith : 6 + 6 * n = 6 * (n + 1) := by ring
      rw [harith]

theorem parse_6bit_ascii_ok (size : Nat) {s : List Bool} (h : 6 * (size / 6) ≤ s.length) :
    ∃ str, parse_6bit_ascii size s = .ok (str, s.drop (6 * (size / 6))) := by
  obtain ⟨cs, hcs⟩ := readGroups_ok h
  refine ⟨String.mk (stripTrailingAt (cs.map sixbitToChar)), ?_⟩
  simp only [parse_6bit_ascii]
  rw [bindEq, pBind_ok _ hcs]
  rfl

theorem parse_6bit_ascii_inv {size : Nat} {s : List Bool} {str : String} {t : List Bool}
    (h : parse_6bit_ascii size s = .ok (str, t)) :
    6 * (size / 6) ≤ s.length ∧ t = s.drop (6 * (size / 6)) := by
  simp only [parse_6bit_ascii] at h
  obtain ⟨cs, t1, h1, h2⟩ := bind_inv h
  obtain ⟨rfl, rfl⟩ := pure_inv h2
  exact readGroups_inv h1

theorem parse_year_ok {s : List Bool} (h : 14 ≤ s.length) :
    ∃ v, parse_year s = .ok (v, s.drop 14) := by
  refine ⟨if bitsToNat (s.take 14) = 0 then none else some (bitsToNat (s.take 14)), ?_⟩
  simp only [parse_year]
  rw [bindEq, pBind_ok _ (takeBits_ok h)]
  rfl

theorem parse_year_inv {s : List Bool} {v : Option Nat} {t : List Bool}
    (h : parse_year s = .ok (v, t)) : 14 ≤ s.length ∧ t = s.drop 14 := by
  simp only [parse_year] at h
  obtain ⟨y, t1, h1, h2⟩ := bind_inv h
  obtain ⟨rfl, rfl⟩ := pure_inv h2
  obtain ⟨hw, _, rfl⟩ := takeBits_inv h1
  exact ⟨hw, rfl⟩

theorem parse_month_ok {s : List Bool} (h : 4 ≤ s.length) :
    ∃ v, parse_month s = .ok (v, s.drop 4) := by
  refine ⟨if bitsToNat (s.take 4) = 0 then none else some (bitsToNat (s.take 4)), ?_⟩
  simp only [parse_month]
  rw [bindEq, pBind_ok _ (takeBits_ok h)]
  rfl

theorem parse_month_inv {s : List Bool} {v : Option Nat} {t : List Bool}
    (h : parse_month s = .ok (v, t)) : 4 ≤ s.length ∧ t = s.drop 4 := by
  simp only [parse_month] at h
  obtain ⟨y, t1, h1, h2⟩ := bind_inv h
  obtain ⟨rfl, rfl⟩ := pure_inv h2
  obtain ⟨hw, _, rfl⟩ := takeBits_inv h1
  exact ⟨hw, rfl⟩

theorem parse_day_ok {s : List Bool} (h : 5 ≤ s.length) :
    ∃ v, parse_day s = .ok (v, s.drop 5) := by
  refine ⟨if bitsToNat (s.take 5) = 0 then none else some (bitsToNat (s.take 5)), ?_⟩
  simp only [parse_day]
  rw [bindEq, pBind_ok _ (takeBits_ok h)]
  rfl

theorem parse_day_inv {s : List Bool} {v : Option Nat} {t : List Bool}
    (h : parse_day s = .ok (v, t)) : 5 ≤ s.length ∧ t = s.drop 5 := by
  simp only [parse_day] at h
  obtain ⟨y, t1, h1, h2⟩ := bind_inv h
  obtain ⟨rfl, rfl⟩ := pure_inv h2
  obtain ⟨hw, _, rfl⟩ := takeBits_inv h1
  exact ⟨hw, rfl⟩

theorem parse_hour_ok {s : List Bool} (h : 5 ≤ s.length) :
    ∃ v, parse_hour s = .ok (v, s.drop 5) := by
  refine ⟨if bitsToNat (s.take 5) = 24 then none else some (bitsToNat (s.take 5)), ?_⟩
  simp only [parse_hour]
  rw [bindEq, pBind_ok _ (takeBits_ok h)]
  rfl

theorem parse_hour_inv {s : List Bool} {v : Option Nat} {t : List Bool}
    (h : parse_hour s = .ok (v, t)) : 5 ≤ s.length ∧ t = s.drop 5 := by
  simp only [parse_hour] at h
  obtain ⟨y, t1, h1, h2⟩ := bind_inv h
  obtain ⟨rfl, rfl⟩ := pure_inv h2
  obtain ⟨hw, _, rfl⟩ := takeBits_inv h1
  exact ⟨hw, rfl⟩

theorem parse_minsec_ok {s : List Bool} (h : 6 ≤ s.length) :
    ∃ v, parse_minsec s = .ok (v, s.drop 6) := by
  refine ⟨if bitsToNat (s.take 6) = 60 then none else some (bitsToNat (s.take 6)), ?_⟩
  simp only [parse_minsec]
  rw [bindEq, pBind_ok _ (takeBits_ok h)]
  rfl

theorem parse_minsec_inv {s : List Bool} {v : Option Nat} {t : List Bool}
    (h : parse_minsec s = .ok (v, t)) : 6 ≤ s.length ∧ t = s.drop 6 := by
  simp only [parse_minsec] at h
  obtain ⟨y, t1, h1, h2⟩ := bind_inv h
  obtain ⟨rfl, rfl⟩ := pure_inv h2
  obtain ⟨hw, _, rfl⟩ := takeBits_inv h1
  exact ⟨hw, rfl⟩

theorem u8_to_bool_ok {n : Nat} (h : n ≤ 1) : ∃ b, u8_to_bool n = .ok b := by
  match n, h with
  | 0, _ => exact ⟨false, rfl⟩
  | 1, _ => exact ⟨true, rfl⟩

theorem accuracy_parse_ok {n : Nat} (h : n ≤ 1) : ∃ a, Accuracy.parse n = .ok a := by
  match n, h with
  | 0, _ => exact ⟨.Unaugmented, rfl⟩
  | 1, _ => exact ⟨.DGPS, rfl⟩

theorem take1_le_one (s : List Bool) : bitsToNat (s.take 1) ≤ 1 := by
  have h := bitsToNat_lt (s.take 1)
  have hl : (s.take 1).length ≤ 1 := by
    simp only [List.length_take]
    omega
  have : (2 : Nat) ^ (s.take 1).length ≤ 2 ^ 1 := Nat.pow_le_pow_right (by omega) hl
  omega

theorem parse_radio_ok {mt : Nat} {s : List Bool} (h : 19 ≤ s.length) :
    ∃ v, parse_radio mt s = .ok (v, s.drop 19) := by
  unfold parse_radio
  split
  · obtain ⟨kb, hkb⟩ := u8_to_bool_ok (take1_le_one ((s.drop 2).drop 13 |>.drop 3))
    refine ⟨.Itdma ⟨bitsToNat (s.take 2), bitsToNat ((s.drop 2).take 13),
      bitsToNat (((s.drop 2).drop 13).take 3), kb⟩, ?_⟩
    rw [bindEq, pBind_ok _ (takeBits_ok (by omega))]
    rw [bindEq, pBind_ok _ (takeBits_ok (by simp only [List.length_drop]; omega))]
    rw [bindEq, pBind_ok _ (takeBits_ok (by simp only [List.length_drop]; omega))]
    rw [bindEq, pBind_ok _ (map_res_ok
      (takeBits_ok (by simp only [List.length_drop]; omega)) hkb)]
    simp only [List.drop_drop]
    norm_num
    rfl
  · refine ⟨.Sotdma ⟨bitsToNat (s.take 2), bitsToNat ((s.drop 2).take 3),
      bitsToNat (((s.drop 2).drop 3).take 14)⟩, ?_⟩
    rw [bindEq, pBind_ok _ (takeBits_ok (by omega))]
    rw [bindEq, pBind_ok _ (takeBits_ok (by simp only [List.length_drop]; omega))]
    rw [bindEq, pBind_ok _ (takeBits_ok (by simp only [List.length_drop]; omega))]
    simp only [List.drop_drop]
    norm_num
    rfl

theorem parse_radio_inv {mt : Nat} {s : List Bool} {v : RadioStatus} {t : List Bool}
    (h : parse_radio mt s = .ok (v, t)) : 19 ≤ s.length ∧ t = s.drop 19 := by
  unfold parse_radio at h
  split at h
  · obtain ⟨a1, t1, h1, h⟩ := bind_inv h
    obtain ⟨a2, t2, h2, h⟩ := bind_inv h
    obtain ⟨a3, t3, h3, h⟩ := bind_inv h
    obtain ⟨a4, t4, h4, h⟩ := bind_inv h
    obtain ⟨rfl, rfl⟩ := pure_inv h
    obtain ⟨hw1, _, rfl⟩ := takeBits_inv h1
    obtain ⟨hw2, _, rfl⟩ := takeBits_inv h2
    obtain ⟨hw3, _, rfl⟩ := takeBits_inv h3
    obtain ⟨a5, h5, _⟩ := map_res_inv h4
    obtain ⟨hw4, _, rfl⟩ := takeBits_inv h5
    simp only [List.length_drop] at hw1 hw2 hw3 hw4
    constructor
    · omega
    · simp only [List.drop_drop]
  · obtain ⟨a1, t1, h1, h⟩ := bind_inv h
    obtain ⟨a2, t2, h2, h⟩ := bind_inv h
    obtain ⟨a3, t3, h3, h⟩ := bind_inv h
    obtain ⟨rfl, rfl⟩ := pure_inv h
    obtain ⟨hw1, _, rfl⟩ := takeBits_inv h1
    obtain ⟨hw2, _, rfl⟩ := takeBits_inv h2
    obtain ⟨hw3, _, rfl⟩ := takeBits_inv h3
    simp only [List.length_drop] at hw1 hw2 hw3
    constructor
    · omega
    · simp only [List.drop_drop]

theorem parse_part_a_run {s : List Bool} {nm : String} {u : List Bool}
    (h : parse_6bit_ascii 120 s = .ok (nm, u)) :
    parse_part_a s = .ok (.PartA nm, u.drop (min u.length 7)) := by
  unfold parse_part_a
  rw [bindEq, pBind_ok _ h]
  rw [bindEq, pBind_ok _ (remaining_bits_run u)]
  rw [bindEq, pBind_ok _ (takeBits_ok (Nat.min_le_left u.length 7))]
  rfl

theorem parse_part_a_inv {s : List Bool} {mp : MessagePart} {t : List Bool}
    (h : parse_part_a s = .ok (mp, t)) :
    ∃ nm u, parse_6bit_ascii 120 s = .ok (nm, u) ∧ mp = .PartA nm := by
  unfold parse_part_a at h
  obtain ⟨nm, u, h1, h2⟩ := bind_inv h
  obtain ⟨rem, u2, h3, h4⟩ := bind_inv h2
  obtain ⟨sp, u3, h5, h6⟩ := bind_inv h4
  obtain ⟨rfl, rfl⟩ := pure_inv h6
  exact ⟨nm, u, h1, rfl⟩

theorem parse_6bit_ascii_ok' (size : Nat) {s : List Bool} (hdiv : 6 * (size / 6) = size)
    (h : size ≤ s.length) :
    ∃ str, parse_6bit_ascii size s = .ok (str, s.drop size) := by
  obtain ⟨str, hstr⟩ := parse_6bit_ascii_ok size (s := s) (by omega)
  rw [hdiv] at hstr
  exact ⟨str, hstr⟩

theorem parse_part_b_err {s : List Bool} (h1 : 122 ≤ s.length) (h2 : s.length < 128)
    (hship : ∃ v, ShipType.parse (bitsToNat (s.take 8)) = .ok v) :
    parse_part_b s = .error .eof := by
  unfold parse_part_b
  obtain ⟨v, hst⟩ := hship
  rw [bindEq, pBind_ok _ (map_res_ok (takeBits_ok (by omega)) hst)]
  obtain ⟨vid, hvid⟩ := parse_6bit_ascii_ok' 18 (s := s.drop 8) (by norm_num)
    (by simp only [List.length_drop]; omega)
  rw [bindEq, pBind_ok _ hvid]
  obtain ⟨ms, hms⟩ := parse_6bit_ascii_ok' 24 (s := (s.drop 8).drop 18) (by norm_num)
    (by simp only [List.length_drop]; omega)
  rw [bindEq, pBind_ok _ (lookahead_ok hms)]
  rw [bindEq, pBind_ok _ (takeBits_ok (w := 4) (by simp only [List.length_drop]; omega))]
  rw [bindEq, pBind_ok _ (takeBits_ok (w := 20) (by simp only [List.length_drop]; omega))]
  obtain ⟨cs, hcs⟩ := parse_6bit_ascii_ok' 42
    (s := ((((s.drop 8).drop 18).drop 4).drop 20)) (by norm_num)
    (by simp only [List.length_drop]; omega)
  rw [bindEq, pBind_ok _ hcs]
  rw [bindEq, pBind_ok _ (takeBits_ok (w := 9) (by simp only [List.length_drop]; omega))]
  rw [bindEq, pBind_ok _ (takeBits_ok (w := 9) (by simp only [List.length_drop]; omega))]
  rw [bindEq, pBind_ok _ (takeBits_ok (w := 6) (by simp only [List.length_drop]; omega))]
  rw [bindEq, pBind_ok _ (takeBits_ok (w := 6) (by simp only [List.length_drop]; omega))]
  rw [bindEq, pBind_err _ (takeBits_err (by simp only [List.length_drop]; omega))]

theorem parse_part_b_inv {s : List Bool} {mp : MessagePart} {t : List Bool}
    (h : parse_part_b s = .ok (mp, t)) :
    ∃ st vid ms um sn cs d1 d2 d3 d4,
      mp = .PartB st vid ms um sn cs d1 d2 d3 d4 ∧
      parse_6bit_ascii 24 (s.drop 26) = .ok (ms, s.drop 50) ∧
      um = bitsToNat ((s.drop 26).take 4) ∧
      sn = bitsToNat ((s.drop 30).take 20) := by
  unfold parse_part_b at h
  obtain ⟨st, t1, h1, h⟩ := bind_inv h
  obtain ⟨a1, h1a, h1b⟩ := map_res_inv h1
  obtain ⟨hw1, _, rfl⟩ := takeBits_inv h1a
  obtain ⟨vid, t2, h2, h⟩ := bind_inv h
  obtain ⟨hl2, rfl⟩ := parse_6bit_ascii_inv h2
  obtain ⟨ms, t3, h3, h⟩ := bind_inv h
  obtain ⟨rfl, u, hu⟩ := lookahead_inv h3
  obtain ⟨hl3, hu2⟩ := parse_6bit_ascii_inv hu
  obtain ⟨um, t4, h4, h⟩ := bind_inv h
  obtain ⟨hw4, hum, rfl⟩ := takeBits_inv h4
  obtain ⟨sn, t5, h5, h⟩ := bind_inv h
  obtain ⟨hw5, hsn, rfl⟩ := takeBits_inv h5
  obtain ⟨cs, t6, h6, h⟩ := bind_inv h
  obtain ⟨d1, t7, h7, h⟩ := bind_inv h
  obtain ⟨d2, t8, h8, h⟩ := bind_inv h
  obtain ⟨d3, t9, h9, h⟩ := bind_inv h
  obtain ⟨d4, t10, h10, h⟩ := bind_inv h
  obtain ⟨sp, t11, h11, h⟩ := bind_inv h
  obtain ⟨rfl, rfl⟩ := pure_inv h
  subst hu2
  refine ⟨st, vid, ms, um, sn, cs, d1, d2, d3, d4, rfl, ?_, ?_, ?_⟩
  · simp only [List.drop_drop] at hu ⊢
    norm_num at hu ⊢
    exact hu
  · simp only [List.drop_drop] at hum ⊢
    norm_num at hum ⊢
    exact hum
  · simp only [List.drop_drop] at hsn ⊢
    norm_num at hsn ⊢
    exact hsn

theorem parse_message_part_run (m : Nat) {s : List Bool} (h : 2 ≤ s.length) :
    parse_message_part m s =
      if bitsToNat (s.take 2) = 0 then parse_part_a (s.drop 2)
      else if bitsToNat (s.take 2) = 1 then parse_part_b (s.drop 2)
      else if bitsToNat (s.take 2) = 2 then .error .digit
      else if bitsToNat (s.take 2) = 3 then .error .digit
      else .error .panic := by
  unfold parse_message_part
  rw [bindEq, pBind_ok _ (takeBits_ok h)]
  generalize bitsToNat (s.take 2) = d
  rcases d with _ | _ | _ | _ | k
  · rw [if_pos rfl]
  · rw [if_neg (by omega), if_pos rfl]
  · rw [if_neg (by omega), if_neg (by omega), if_pos rfl]
  · rw [if_neg (by omega), if_neg (by omega), if_neg (by omega), if_pos rfl]
  · rw [if_neg (by omega), if_neg (by omega), if_neg (by omega), if_neg (by omega)]
    rfl

theorem parse_message_part_append {m : Nat} {s b : List Bool} {mp : MessagePart}
    {t : List Bool} (h : parse_message_part m s = .ok (mp, t)) :
    ∃ t', parse_message_part m (s ++ b) = .ok (mp, t') := by
  unfold parse_message_part at h ⊢
  obtain ⟨d, t1, h1, h2⟩ := bind_inv h
  obtain ⟨hw, hd, rfl⟩ := takeBits_inv h1
  rw [bindEq, pBind_ok _ (takeBits_append h1)]
  rcases d with _ | _ | _ | _ | k
  · obtain ⟨nm, u, hnm, rfl⟩ := parse_part_a_inv h2
    have hnm' := detP_parse_6bit_ascii 120 _ b _ _ hnm
    exact ⟨_, parse_part_a_run hnm'⟩
  · exact ⟨t ++ b, detP_parse_part_b _ b _ _ h2⟩
  · exact Except.noConfusion h2
  · exact Except.noConfusion h2
  · exact Except.noConfusion h2

theorem parse_base_sdr_append {s b : List Bool} {r : StaticDataReport} {t : List Bool}
    (h : parse_base_sdr s = .ok (r, t)) :
    ∃ t', parse_base_sdr (s ++ b) = .ok (r, t') := by
  unfold parse_base_sdr at h ⊢
  obtain ⟨mt, t1, h1, h⟩ := bind_inv h
  obtain ⟨ri, t2, h2, h⟩ := bind_inv h
  obtain ⟨mm, t3, h3, h⟩ := bind_inv h
  obtain ⟨mp, t4, h4, h⟩ := bind_inv h
  obtain ⟨rfl, rfl⟩ := pure_inv h
  obtain ⟨t', ht'⟩ := parse_message_part_append (b := b) h4
  refine ⟨t', ?_⟩
  rw [bindEq, pBind_ok _ (takeBits_append h1)]
  rw [bindEq, pBind_ok _ (takeBits_append h2)]
  rw [bindEq, pBind_ok _ (takeBits_append h3)]
  rw [bindEq, pBind_ok _ ht']
  rfl

theorem sdr_run {s : List Bool} (h : 38 ≤ s.length) :
    parse_base_sdr s =
      match parse_message_part (bitsToNat ((s.drop 8).take 30)) (s.drop 38) with
      | .ok (mp, t) => .ok ({ message_type := bitsToNat (s.take 6),
                              repeat_indicator := bitsToNat ((s.drop 6).take 2),
                              mmsi := bitsToNat ((s.drop 8).take 30),
                              message_part := mp }, t)
      | .error e => .error e := by
  unfold parse_base_sdr
  rw [bindEq, pBind_ok _ (takeBits_ok (show 6 ≤ s.length by omega))]
  rw [bindEq, pBind_ok _ (takeBits_ok (show 2 ≤ (s.drop 6).length by
    simp only [List.length_drop]; omega))]
  rw [bindEq, pBind_ok _ (takeBits_ok (show 30 ≤ ((s.drop 6).drop 2).length by
    simp only [List.length_drop]; omega))]
  simp only [List.drop_drop]
  norm_num
  cases hmp : parse_message_part (bitsToNat (List.take 30 (List.drop 8 s))) (List.drop 38 s) with
  | error e => simp only [bindEq, pBind, hmp]
  | ok pr =>
    obtain ⟨mp, t⟩ := pr
    simp only [bindEq, pBind, hmp, pureEq, pPure]

theorem bsr_header_inv {s : List Bool} {r : BaseStationReport} {t : List Bool}
    (h : parse_base_bsr s = .ok (r, t)) :
    r.message_type = bitsToNat (s.take 6) ∧
    r.repeat_indicator = bitsToNat ((s.drop 6).take 2) ∧
    r.mmsi = bitsToNat ((s.drop 8).take 30) := by
  unfold parse_base_bsr at h
  obtain ⟨mt, t1, h1, h⟩ := bind_inv h
  obtain ⟨ri, t2, h2, h⟩ := bind_inv h
  obtain ⟨mm, t3, h3, h⟩ := bind_inv h
  obtain ⟨yr, t4, h4, h⟩ := bind_inv h
  obtain ⟨mo, t5, h5, h⟩ := bind_inv h
  obtain ⟨dy, t6, h6, h⟩ := bind_inv h
  obtain ⟨hr, t7, h7, h⟩ := bind_inv h
  obtain ⟨mi, t8, h8, h⟩ := bind_inv h
  obtain ⟨sc, t9, h9, h⟩ := bind_inv h
  obtain ⟨fq, t10, h10, h⟩ := bind_inv h
  obtain ⟨lo, t11, h11, h⟩ := bind_inv h
  obtain ⟨la, t12, h12, h⟩ := bind_inv h
  obtain ⟨ep, t13, h13, h⟩ := bind_inv h
  obtain ⟨sp, t14, h14, h⟩ := bind_inv h
  obtain ⟨ra, t15, h15, h⟩ := bind_inv h
  obtain ⟨rs, t16, h16, h⟩ := bind_inv h
  obtain ⟨rfl, rfl⟩ := pure_inv h
  obtain ⟨hw1, hv1, rfl⟩ := takeBits_inv h1
  obtain ⟨hw2, hv2, rfl⟩ := takeBits_inv h2
  obtain ⟨hw3, hv3, rfl⟩ := takeBits_inv h3
  simp only [List.drop_drop] at hv3
  exact ⟨hv1, hv2, hv3⟩

theorem sdr_header_inv {s : List Bool} {r : StaticDataReport} {t : List Bool}
    (h : parse_base_sdr s = .ok (r, t)) :
    r.message_type = bitsToNat (s.take 6) ∧
    r.repeat_indicator = bitsToNat ((s.drop 6).take 2) ∧
    r.mmsi = bitsToNat ((s.drop 8).take 30) := by
  unfold parse_base_sdr at h
  obtain ⟨mt, t1, h1, h⟩ := bind_inv h
  obtain ⟨ri, t2, h2, h⟩ := bind_inv h
  obtain ⟨mm, t3, h3, h⟩ := bind_inv h
  obtain ⟨mp, t4, h4, h⟩ := bind_inv h
  obtain ⟨rfl, rfl⟩ := pure_inv h
  obtain ⟨hw1, hv1, rfl⟩ := takeBits_inv h1
  obtain ⟨hw2, hv2, rfl⟩ := takeBits_inv h2
  obtain ⟨hw3, hv3, rfl⟩ := takeBits_inv h3
  simp only [List.drop_drop] at hv3
  exact ⟨hv1, hv2, hv3⟩

/-- The raw 28-bit longitude field of a Base Station Report bit stream:
bits 79 to 107, reinterpreted as two's-complement (6+2+30+14+4+5+5+6+6+1
header and time bits precede it). -/
def bsr_longitude_raw (s : List Bool) : Int :=
  toSigned 28 (bitsToNat ((s.drop 79).take 28))

theorem bsr_longitude_err {s : List Bool} (hlen : 107 ≤ s.length)
    (hbad1 : ¬(-108000000 ≤ bsr_longitude_raw s ∧ bsr_longitude_raw s ≤ 108000000))
    (hbad2 : bsr_longitude_raw s ≠ 108600000) :
    parse_base_bsr s = .error .mapRes := by
  unfold parse_base_bsr
  rw [bindEq, pBind_ok _ (takeBits_ok (w := 6) (by omega))]
  rw [bindEq, pBind_ok _ (takeBits_ok (w := 2) (by simp only [List.length_drop]; omega))]
  rw [bindEq, pBind_ok _ (takeBits_ok (w := 30) (by simp only [List.length_drop]; omega))]
  obtain ⟨yv, hy⟩ := parse_year_ok (s := ((s.drop 6).drop 2).drop 30)
    (by simp only [List.length_drop]; omega)
  rw [bindEq, pBind_ok _ hy]
  obtain ⟨mov, hmo⟩ := parse_month_ok (s := (((s.drop 6).drop 2).drop 30).drop 14)
    (by simp only [List.length_drop]; omega)
  rw [bindEq, pBind_ok _ hmo]
  obtain ⟨dv, hdv⟩ := parse_day_ok (s := ((((s.drop 6).drop 2).drop 30).drop 14).drop 4)
    (by simp only [List.length_drop]; omega)
  rw [bindEq, pBind_ok _ hdv]
  obtain ⟨hv, hhv⟩ := parse_hour_ok (s := (((((s.drop 6).drop 2).drop 30).drop 14).drop 4).drop 5)
    (by simp only [List.length_drop]; omega)
  rw [bindEq, pBind_ok _ hhv]
  obtain ⟨miv, hmi⟩ := parse_minsec_ok
    (s := ((((((s.drop 6).drop 2).drop 30).drop 14).drop 4).drop 5).drop 5)
    (by simp only [List.length_drop]; omega)
  rw [bindEq, pBind_ok _ hmi]
  obtain ⟨sev, hse⟩ := parse_minsec_ok
    (s := (((((((s.drop 6).drop 2).drop 30).drop 14).drop 4).drop 5).drop 5).drop 6)
    (by simp only [List.length_drop]; omega)
  rw [bindEq, pBind_ok _ hse]
  obtain ⟨acc, hacc⟩ := accuracy_parse_ok
    (take1_le_one (((((((((s.drop 6).drop 2).drop 30).drop 14).drop 4).drop 5).drop 5).drop 6).drop 6))
  rw [bindEq, pBind_ok _ (map_res_ok
    (takeBits_ok (w := 1) (by simp only [List.length_drop]; omega)) hacc)]
  have hsig := signed_i32_ok (w := 28)
    (s := (((((((((s.drop 6).drop 2).drop 30).drop 14).drop 4).drop 5).drop 5).drop 6).drop 6).drop 1)
    (by simp only [List.length_drop]; omega)
  have hstate :
      (((((((((s.drop 6).drop 2).drop 30).drop 14).drop 4).drop 5).drop 5).drop 6).drop 6).drop 1
        = s.drop 79 := by
    simp only [List.drop_drop]
  unfold bsr_longitude_raw at hbad1 hbad2
  have herr : parse_longitude (toSigned 28 (bitsToNat
      (((((((((((s.drop 6).drop 2).drop 30).drop 14).drop 4).drop 5).drop 5).drop 6).drop 6).drop 1).take 28)))
      = .error "Invalid longitude" := by
    rw [hstate]
    unfold parse_longitude
    rw [if_neg hbad1, if_neg hbad2]
  rw [bindEq, pBind_err _ (map_res_err hsig herr)]

theorem sdr_partA_ok (hdr rest : List Bool) (hh : hdr.length = 38) (h120 : 120 ≤ rest.length) :
    ∃ r nm, parse_base_sdr (hdr ++ ([false, false] ++ rest)) =
      .ok (r, (rest.drop 120).drop (min (rest.drop 120).length 7)) ∧
      r.message_part = .PartA nm := by
  have hs : 38 ≤ (hdr ++ ([false, false] ++ rest)).length := by
    simp only [List.length_append, hh]; omega
  rw [sdr_run hs]
  have hdrop : (hdr ++ ([false, false] ++ rest)).drop 38 = [false, false] ++ rest :=
    List.drop_left' hh
  rw [hdrop]
  rw [parse_message_part_run _ (by simp)]
  have htake : bitsToNat (([false, false] ++ rest).take 2) = 0 := rfl
  rw [htake]
  have hdrop2 : ([false, false] ++ rest).drop 2 = rest := rfl
  obtain ⟨nm, hnm⟩ := parse_6bit_ascii_ok' 120 (by norm_num) h120
  rw [hdrop2, parse_part_a_run hnm]
  exact ⟨_, nm, rfl, rfl⟩

/-! The claims. -/

theorem i8OfU8_range (d : Nat) : -128 ≤ i8OfU8 d ∧ i8OfU8 d ≤ 127 := by
  have h256 : d % 256 < 256 := Nat.mod_lt _ (by norm_num)
  unfold i8OfU8
  split <;> omega

/-- Claim C1: for a 28-bit signed raw longitude value, `parse_longitude`
returns the present value `raw/600000` on `[-108000000, 108000000]`, the
absent marker on the sentinel `108600000`, and a decode failure on every
other value (including `-108600000`); the three cases are exhaustive, so
no other outcome is possible. -/
theorem claim_C1 (d : Int) :
    (-108000000 ≤ d ∧ d ≤ 108000000 → parse_longitude d = .ok (some ((d : ℚ) / 600000))) ∧
    (d = 108600000 → parse_longitude d = .ok none) ∧
    (¬(-108000000 ≤ d ∧ d ≤ 108000000) → d ≠ 108600000 →
      parse_longitude d = .error "Invalid longitude") := by
  refine ⟨fun h => ?_, fun h => ?_, fun h1 h2 => ?_⟩
  · unfold parse_longitude
    rw [if_pos h]
  · subst h
    unfold parse_longitude
    rw [if_neg (by omega), if_pos rfl]
  · unfold parse_longitude
    rw [if_neg h1, if_neg h2]

/-- Witness for C1 at the raw values 600000 (present), 108600000 (absent)
and -108600000 (failure). -/
theorem claim_C1_witness :
    parse_longitude 600000 = .ok (some 1) ∧
    parse_longitude 108600000 = .ok none ∧
    parse_longitude (-108600000) = .error "Invalid longitude" := by
  refine ⟨?_, (claim_C1 108600000).2.1 rfl,
    (claim_C1 (-108600000)).2.2 (by norm_num) (by norm_num)⟩
  have h := (claim_C1 600000).1 (by norm_num)
  rw [h]
  norm_num

/-- Claim C2: `RateOfTurn::parse` returns the absent marker exactly on the
8-bit raw value 128 (signed -128); signed 127 and -127 have an absent rate
but a present direction (starboard, port); signed 0 has no direction and
rate 0; every signed raw in `[-126, 126]` has rate `(raw/4.733)^2` and a
direction given by the sign. -/
theorem claim_C2 (d : Nat) (hd : d < 256) :
    (RateOfTurn.parse d = .ok none ↔ d = 128) ∧
    (∀ r, RateOfTurn.parse d = .ok (some r) →
      (r.raw = 127 → r.rate = .ok none ∧ r.direction = .ok (some .Starboard)) ∧
      (r.raw = -127 → r.rate = .ok none ∧ r.direction = .ok (some .Port)) ∧
      (r.raw = 0 → r.direction = .ok none ∧ r.rate = .ok (some 0)) ∧
      (-126 ≤ r.raw ∧ r.raw ≤ 126 →
        r.rate = .ok (some (((r.raw : ℚ) / (4733 / 1000)) ^ 2)) ∧
        (0 < r.raw → r.direction = .ok (some .Starboard)) ∧
        (r.raw < 0 → r.direction = .ok (some .Port)))) := by
  have hmod : d % 256 = d := Nat.mod_eq_of_lt hd
  constructor
  · simp only [RateOfTurn.parse, i8OfU8, hmod]
    by_cases hc : d < 128
    · rw [if_pos hc, if_neg (by omega), if_pos (by constructor <;> omega)]
      constructor
      · intro h
        cases h
      · intro h
        omega
    · rw [if_neg hc]
      by_cases h128 : d = 128
      · subst h128
        rw [if_pos (by norm_num)]
        simp
      · rw [if_neg (by omega), if_pos (by constructor <;> omega)]
        constructor
        · intro h
          cases h
        · intro h
          omega
  · intro r _
    refine ⟨fun h127 => ⟨?_, ?_⟩, fun hm127 => ⟨?_, ?_⟩, fun h0 => ⟨?_, ?_⟩,
      fun hrange => ⟨?_, fun hpos => ?_, fun hneg => ?_⟩⟩
    · unfold RateOfTurn.rate
      rw [h127]
      norm_num
    · unfold RateOfTurn.direction
      rw [h127]
      norm_num
    · unfold RateOfTurn.rate
      rw [hm127]
      norm_num
    · unfold RateOfTurn.direction
      rw [hm127]
      norm_num
    · unfold RateOfTurn.direction
      rw [h0]
      norm_num
    · unfold RateOfTurn.rate
      rw [h0]
      norm_num
    · unfold RateOfTurn.rate
      rw [if_pos hrange]
    · unfold RateOfTurn.direction
      rw [if_neg (by omega), if_pos (by constructor <;> omega)]
    · unfold RateOfTurn.direction
      rw [if_neg (by omega), if_neg (by omega), if_pos (by constructor <;> omega)]

/-- Witness for C2 at raw 128 (absent), raw 127 (rate absent, starboard)
and raw 0 via the signed value 0 (no direction, rate 0). -/
theorem claim_C2_witness :
    RateOfTurn.parse 128 = .ok none ∧
    RateOfTurn.rate ⟨127⟩ = .ok none ∧
    RateOfTurn.direction ⟨127⟩ = .ok (some .Starboard) ∧
    RateOfTurn.direction ⟨0⟩ = .ok none ∧
    RateOfTurn.rate ⟨0⟩ = .ok (some 0) := by
  have h128 := (claim_C2 128 (by norm_num)).1.mpr rfl
  have h127 := (claim_C2 127 (by norm_num)).2 ⟨127⟩ (by decide)
  have h0 := (claim_C2 0 (by norm_num)).2 ⟨0⟩ (by decide)
  exact ⟨h128, (h127.1 rfl).1, (h127.1 rfl).2, (h0.2.2.1 rfl).1, (h0.2.2.1 rfl).2⟩

/-- Claim C9: the `unreachable` panic arms of `RateOfTurn` are dead code:
for every 8-bit input `parse` covers all cases without panicking, and for
every value constructible via `parse`, `rate` and `direction` never reach
their panic arms. -/
theorem claim_C9 (d : Nat) (hd : d < 256) :
    (∃ v, RateOfTurn.parse d = .ok v) ∧
    (∀ r, RateOfTurn.parse d = .ok (some r) →
      (∃ x, RateOfTurn.rate r = .ok x) ∧ (∃ y, RateOfTurn.direction r = .ok y)) := by
  obtain ⟨hlo, hhi⟩ := i8OfU8_range d
  constructor
  · unfold RateOfTurn.parse
    by_cases h1 : i8OfU8 d = -128
    · rw [if_pos h1]
      exact ⟨none, rfl⟩
    · rw [if_neg h1, if_pos (by constructor <;> omega)]
      exact ⟨some ⟨i8OfU8 d⟩, rfl⟩
  · intro r hr
    simp only [RateOfTurn.parse] at hr
    split_ifs at hr with h1 h2
    · cases hr
    · have hraw : r.raw = i8OfU8 d := by
        cases hr
        rfl
      constructor
      · unfold RateOfTurn.rate
        split_ifs with g1 g2 g3
        · exact ⟨_, rfl⟩
        · exact ⟨_, rfl⟩
        · exact ⟨_, rfl⟩
        · rw [hraw] at g1 g2 g3
          omega
      · unfold RateOfTurn.direction
        split_ifs with g1 g2 g3
        · exact ⟨_, rfl⟩
        · exact ⟨_, rfl⟩
        · exact ⟨_, rfl⟩
        · rw [hraw] at g1 g2 g3
          omega

/-- Witness for C9 at the 8-bit input 42. -/
theorem claim_C9_witness :
    (∃ v, RateOfTurn.parse 42 = .ok v) ∧
    (∃ x, RateOfTurn.rate ⟨42⟩ = .ok x) ∧ (∃ y, RateOfTurn.direction ⟨42⟩ = .ok y) := by
  have h := claim_C9 42 (by norm_num)
  exact ⟨h.1, (h.2 ⟨42⟩ (by decide)).1, (h.2 ⟨42⟩ (by decide)).2⟩

/-- Claim C3: when the Static Data Report header (38 bits), the Part A
discriminant 0, and the 120-bit vessel name all parse, the decode succeeds
and returns the same record whether 0 or up to 7 trailing spare bits
follow the name: the spare width consumed is clamped to the remaining
length, so omitted spare bits neither fail the decode nor change the
record. -/
theorem claim_C3 (hdr name extra : List Bool) (hh : hdr.length = 38)
    (hn : name.length = 120) (he : extra.length ≤ 7) :
    ∃ r, parse_base_sdr (hdr ++ ([false, false] ++ name)) = .ok (r, []) ∧
      parse_base_sdr (hdr ++ ([false, false] ++ (name ++ extra))) = .ok (r, []) ∧
      ∃ nm, r.message_part = .PartA nm := by
  obtain ⟨r1, nm1, e1, hmp1⟩ := sdr_partA_ok hdr name hh (by omega)
  obtain ⟨r2, nm2, e2, hmp2⟩ := sdr_partA_ok hdr (name ++ extra) hh
    (by simp only [List.length_append]; omega)
  have hrem1 : name.drop 120 = [] := by
    rw [← hn]
    exact List.drop_length name
  rw [hrem1] at e1
  have e1' : parse_base_sdr (hdr ++ ([false, false] ++ name)) = .ok (r1, []) := e1
  have hrem2 : (name ++ extra).drop 120 = extra := List.drop_left' hn
  rw [hrem2, Nat.min_eq_left he, List.drop_length] at e2
  obtain ⟨t', ht'⟩ := parse_base_sdr_append (b := extra) e1'
  have hassoc : (hdr ++ ([false, false] ++ name)) ++ extra
      = hdr ++ ([false, false] ++ (name ++ extra)) := by
    simp [List.append_assoc]
  rw [hassoc] at ht'
  have hsame := e2.symm.trans ht'
  cases hsame
  exact ⟨r1, e1', e2, nm2, hmp2⟩

/-- Witness for C3 with an all-zero header and name and three spare bits. -/
theorem claim_C3_witness :
    ∃ r, parse_base_sdr (List.replicate 38 false ++
        ([false, false] ++ List.replicate 120 false)) = .ok (r, []) ∧
      parse_base_sdr (List.replicate 38 false ++
        ([false, false] ++ (List.replicate 120 false ++ [true, true, true]))) = .ok (r, []) ∧
      ∃ nm, r.message_part = .PartA nm :=
  claim_C3 (List.replicate 38 false) (List.replicate 120 false) [true, true, true]
    (by simp) (by simp) (by simp)

/-- Claim C4: in a successfully decoded Static Data Report Part B, the
24-bit `model_serial` text is decoded from the cursor position right after
`vendor_id` without advancing it, and the very same 24 bits are then
consumed as the 4-bit `unit_model_code` and the 20-bit `serial_number`
(positions 28, 28 and 32 from the discriminant), so both interpretations
of that bit range are exposed in the record. -/
theorem claim_C4 (m : Nat) (s : List Bool) (mp : MessagePart) (t : List Bool)
    (h : parse_message_part m s = .ok (mp, t))
    (st : Option ShipType) (vid ms : String) (um sn : Nat) (cs : String)
    (d1 d2 d3 d4 : Nat)
    (hmp : mp = .PartB st vid ms um sn cs d1 d2 d3 d4) :
    parse_6bit_ascii 24 (s.drop 28) = .ok (ms, s.drop 52) ∧
    um = bitsToNat ((s.drop 28).take 4) ∧
    sn = bitsToNat ((s.drop 32).take 20) := by
  unfold parse_message_part at h
  obtain ⟨d, t1, h1, h2⟩ := bind_inv h
  obtain ⟨hw, hd, rfl⟩ := takeBits_inv h1
  rcases d with _ | _ | _ | _ | k
  · obtain ⟨nm, u, hnm, hmp'⟩ := parse_part_a_inv h2
    rw [hmp'] at hmp
    cases hmp
  · obtain ⟨st', vid', ms', um', sn', cs', e1, e2, e3, e4, hmp', hp6, hum, hsn⟩ :=
      parse_part_b_inv h2
    rw [hmp'] at hmp
    simp only [MessagePart.PartB.injEq] at hmp
    obtain ⟨_, _, hms, hum', hsn', _, _, _, _, _⟩ := hmp
    simp only [List.drop_drop] at hp6 hum hsn
    norm_num at hp6 hum hsn
    subst hms hum' hsn'
    exact ⟨hp6, hum, hsn⟩
  · exact Except.noConfusion h2
  · exact Except.noConfusion h2
  · exact Except.noConfusion h2

set_option maxRecDepth 10000 in
/-- Witness for C4 on a concrete 130-bit Part B buffer. -/
theorem claim_C4_witness :
    parse_6bit_ascii 24 ((([false, true] ++ List.replicate 128 false)).drop 28) =
      .ok ("", ([false, true] ++ List.replicate 128 false).drop 52) ∧
    (0 : Nat) = bitsToNat ((([false, true] ++ List.replicate 128 false).drop 28).take 4) ∧
    (0 : Nat) = bitsToNat ((([false, true] ++ List.replicate 128 false).drop 32).take 20) :=
  claim_C4 0 ([false, true] ++ List.replicate 128 false)
    (.PartB none "" "" 0 0 "" 0 0 0 0) [] (by decide)
    none "" "" 0 0 "" 0 0 0 0 rfl

/-- Claim C5: `parse_base` of the Static Data Report reads the 2-bit part
discriminant right after the 38-bit header; discriminant 0 yields a
Part A record only, discriminant 1 a Part B record only, and 2 or 3 make
the whole decode fail with an error, producing no record. -/
theorem claim_C5 (s : List Bool) (h : 40 ≤ s.length) :
    (bitsToNat ((s.drop 38).take 2) = 0 →
      ∀ r t, parse_base_sdr s = .ok (r, t) → ∃ nm, r.message_part = .PartA nm) ∧
    (bitsToNat ((s.drop 38).take 2) = 1 →
      ∀ r t, parse_base_sdr s = .ok (r, t) →
        ∃ st vid ms um sn cs d1 d2 d3 d4,
          r.message_part = .PartB st vid ms um sn cs d1 d2 d3 d4) ∧
    (bitsToNat ((s.drop 38).take 2) = 2 ∨ bitsToNat ((s.drop 38).take 2) = 3 →
      parse_base_sdr s = .error .digit) := by
  have h38 : 38 ≤ s.length := by omega
  have h2' : 2 ≤ (s.drop 38).length := by
    simp only [List.length_drop]
    omega
  have hrun := sdr_run (s := s) h38
  rw [parse_message_part_run _ h2'] at hrun
  refine ⟨?_, ?_, ?_⟩
  · intro hd r t hr
    rw [hd, if_pos rfl] at hrun
    rw [hrun] at hr
    cases hp : parse_part_a ((s.drop 38).drop 2) with
    | error e =>
      rw [hp] at hr
      cases hr
    | ok pr =>
      obtain ⟨mp, t0⟩ := pr
      rw [hp] at hr
      cases hr
      obtain ⟨nm, u, hnm, hmp⟩ := parse_part_a_inv hp
      exact ⟨nm, hmp⟩
  · intro hd r t hr
    rw [hd, if_neg (by omega), if_pos rfl] at hrun
    rw [hrun] at hr
    cases hp : parse_part_b ((s.drop 38).drop 2) with
    | error e =>
      rw [hp] at hr
      cases hr
    | ok pr =>
      obtain ⟨mp, t0⟩ := pr
      rw [hp] at hr
      cases hr
      obtain ⟨st, vid, ms, um, sn, cs, d1, d2, d3, d4, hmp, _, _, _⟩ := parse_part_b_inv hp
      exact ⟨st, vid, ms, um, sn, cs, d1, d2, d3, d4, hmp⟩
  · intro hd
    rcases hd with hd | hd
    · rw [hd, if_neg (by omega), if_neg (by omega), if_pos rfl] at hrun
      rw [hrun]
    · rw [hd, if_neg (by omega), if_neg (by omega), if_neg (by omega), if_pos rfl] at hrun
      rw [hrun]

/-- Witness for C5: discriminant 2 makes the decode fail. -/
theorem claim_C5_witness :
    parse_base_sdr (List.replicate 38 false ++ [true, false]) = .error .digit :=
  (claim_C5 (List.replicate 38 false ++ [true, false]) (by simp)).2.2
    (Or.inl (by decide))

/-- Claim C6: the 6-bit spare of Static Data Report Part B is mandatory:
in every buffer in which all Part B fields up to `dimension_to_starboard`
parse — the discriminant selects Part B, the delegated ship-type code is
accepted, and 162 to 167 message bits are available, so every remaining
field up to `dimension_to_starboard` is satisfied by length alone — fewer
than 6 bits remain afterwards and the decode fails with the
insufficient-bits error: the spare width is not clamped to the remaining
length as it is in Part A. -/
theorem claim_C6 (s : List Bool) (hd : (s.drop 38).take 2 = [false, true])
    (h1 : 162 ≤ s.length) (h2 : s.length < 168)
    (hship : ∃ v, ShipType.parse (bitsToNat ((s.drop 40).take 8)) = .ok v) :
    parse_base_sdr s = .error .eof := by
  have h38 : 38 ≤ s.length := by omega
  have h2' : 2 ≤ (s.drop 38).length := by
    simp only [List.length_drop]
    omega
  rw [sdr_run h38, parse_message_part_run _ h2', hd]
  have hval : bitsToNat [false, true] = 1 := rfl
  have hs40 : (s.drop 38).drop 2 = s.drop 40 := by
    simp only [List.drop_drop]
  rw [hval, if_neg (by omega), if_pos rfl]
  rw [parse_part_b_err
    (by simp only [List.length_drop, List.drop_drop]; omega)
    (by simp only [List.length_drop, List.drop_drop]; omega)
    (by rw [hs40]; exact hship)]

/-- Witness for C6 on a 162-bit Part B buffer whose ship-type code 0 is
accepted as the absent sentinel. -/
theorem claim_C6_witness :
    parse_base_sdr (List.replicate 38 false ++ ([false, true] ++ List.replicate 122 false)) =
      .error .eof :=
  claim_C6 (List.replicate 38 false ++ ([false, true] ++ List.replicate 122 false))
    (by decide) (by simp) (by simp) ⟨none, by decide⟩

/-- Claim C7: both `parse_base` functions extract the header in the same
fixed order — message type from the first 6 bits, repeat indicator from
the next 2, MMSI as a 30-bit unsigned integer — and in every successful
record the MMSI is a plain (non-optional) unsigned integer. -/
theorem claim_C7 (s : List Bool) :
    (∀ r t, parse_base_bsr s = .ok (r, t) →
      r.message_type = bitsToNat (s.take 6) ∧
      r.repeat_indicator = bitsToNat ((s.drop 6).take 2) ∧
      r.mmsi = bitsToNat ((s.drop 8).take 30)) ∧
    (∀ r t, parse_base_sdr s = .ok (r, t) →
      r.message_type = bitsToNat (s.take 6) ∧
      r.repeat_indicator = bitsToNat ((s.drop 6).take 2) ∧
      r.mmsi = bitsToNat ((s.drop 8).take 30)) := by
  constructor
  · intro r t hr
    exact bsr_header_inv hr
  · intro r t hr
    exact sdr_header_inv hr

/-- The record decoded from an all-zero 168-bit Base Station Report
buffer. -/
def bsrZeroRecord : BaseStationReport :=
  { message_type := 0, repeat_indicator := 0, mmsi := 0, year := none,
    month := none, day := none, hour := some 0, minute := some 0,
    second := some 0, fix_quality := .Unaugmented,
    longitude := some (((0 : Int) : ℚ) / 600000),
    latitude := some (((0 : Int) : ℚ) / 600000), epfd_type := none, raim := false,
    radio_status := .Sotdma ⟨0, 0, 0⟩ }

/-- The record decoded from an all-zero 160-bit Static Data Report
buffer. -/
def sdrZeroRecord : StaticDataReport :=
  { message_type := 0, repeat_indicator := 0, mmsi := 0,
    message_part := .PartA "" }

set_option maxRecDepth 10000 in
/-- Witness for C7 on all-zero buffers for both message types. -/
theorem claim_C7_witness :
    (bsrZeroRecord.message_type = bitsToNat ((List.replicate 168 false).take 6) ∧
      bsrZeroRecord.repeat_indicator = bitsToNat (((List.replicate 168 false).drop 6).take 2) ∧
      bsrZeroRecord.mmsi = bitsToNat (((List.replicate 168 false).drop 8).take 30)) ∧
    (sdrZeroRecord.message_type = bitsToNat ((List.replicate 160 false).take 6) ∧
      sdrZeroRecord.repeat_indicator = bitsToNat (((List.replicate 160 false).drop 6).take 2) ∧
      sdrZeroRecord.mmsi = bitsToNat (((List.replicate 160 false).drop 8).take 30)) :=
  ⟨(claim_C7 (List.replicate 168 false)).1 bsrZeroRecord [] rfl,
   (claim_C7 (List.replicate 160 false)).2 sdrZeroRecord [] rfl⟩

/-- Claim C8: if any field extraction or value-semantics function inside
the Base Station Report decode fails — here, `parse_longitude` rejecting a
raw value outside both the valid range and the sentinel — then
`BaseStationReport::parse` returns an error and no record is produced;
the result type is always a whole record or an error, never a partial
record. -/
theorem claim_C8 (bytes : List Nat)
    (hlen : 107 ≤ (bitsOfBytes bytes).length)
    (hbad1 : ¬(-108000000 ≤ bsr_longitude_raw (bitsOfBytes bytes) ∧
      bsr_longitude_raw (bitsOfBytes bytes) ≤ 108000000))
    (hbad2 : bsr_longitude_raw (bitsOfBytes bytes) ≠ 108600000) :
    BaseStationReport.parse bytes = .error .mapRes := by
  unfold BaseStationReport.parse
  rw [bsr_longitude_err hlen hbad1 hbad2]

set_option maxRecDepth 10000 in
/-- Witness for C8: a buffer whose longitude field holds 134217727. -/
theorem claim_C8_witness :
    BaseStationReport.parse (List.replicate 10 0 ++ [255, 255, 255, 224]) = .error .mapRes :=
  claim_C8 (List.replicate 10 0 ++ [255, 255, 255, 224]) (by decide) (by decide) (by decide)

/-- Claim C10: both decoders ignore input beyond the end of the message:
appending trailing bytes to a successfully decoding buffer neither fails
the decode nor changes any field of the returned record. -/
theorem claim_C10 (bytes extra : List Nat) :
    (∀ r, BaseStationReport.parse bytes = .ok r →
      BaseStationReport.parse (bytes ++ extra) = .ok r) ∧
    (∀ r, StaticDataReport.parse bytes = .ok r →
      StaticDataReport.parse (bytes ++ extra) = .ok r) := by
  have hbits : bitsOfBytes (bytes ++ extra) = bitsOfBytes bytes ++ bitsOfBytes extra := by
    unfold bitsOfBytes
    exact List.flatMap_append bytes extra byteBits
  constructor
  · intro r hr
    unfold BaseStationReport.parse at hr ⊢
    cases hp : parse_base_bsr (bitsOfBytes bytes) with
    | error e =>
      rw [hp] at hr
      cases hr
    | ok pr =>
      obtain ⟨r0, t0⟩ := pr
      rw [hp] at hr
      cases hr
      rw [hbits, detP_parse_base_bsr _ _ _ _ hp]
  · intro r hr
    unfold StaticDataReport.parse at hr ⊢
    cases hp : parse_base_sdr (bitsOfBytes bytes) with
    | error e =>
      rw [hp] at hr
      cases hr
    | ok pr =>
      obtain ⟨r0, t0⟩ := pr
      rw [hp] at hr
      cases hr
      obtain ⟨t', ht'⟩ := parse_base_sdr_append (b := bitsOfBytes extra) hp
      rw [hbits, ht']

set_option maxRecDepth 10000 in
/-- Witness for C10: appending a trailing byte to all-zero buffers leaves
both decoded records unchanged. -/
theorem claim_C10_witness :
    BaseStationReport.parse (List.replicate 21 0 ++ [7]) = .ok bsrZeroRecord ∧
    StaticDataReport.parse (List.replicate 20 0 ++ [7]) = .ok sdrZeroRecord :=
  ⟨(claim_C10 (List.replicate 21 0) [7]).1 bsrZeroRecord rfl,
   (claim_C10 (List.replicate 20 0) [7]).2 sdrZeroRecord rfl⟩

end Ais
